import Mathlib

/-!
Verification development for the n8n SAP AI Core integration package.

The definitions below are shallow embeddings of the TypeScript sources:

* `src/utils/helpers.ts` — `escapeSingleCurlyBrackets`, `getConnectedTools`;
* `src/utils/schemaParsing.ts` — `simplifySchemaForSapAiCore`, `sanitizeSchema`;
* `src/credentials/SapAiCoreApi.credentials.ts` — the tool-calling section of
  `SapAiCoreLlm.execute` (tool filtering, binding, per-directive execution,
  resubmission, and the direct-LLM fallback);
* `src/unnamed/part_003` — `callMethodAsync` and the interception branches of
  `logWrapper`;
* `src/nodes/SapAiCoreChatModel/n8nDefaultFailedAttemptHandler.ts` and
  `n8nLlmFailedAttemptHandler.ts`.

JavaScript values that the code inspects dynamically are modelled by the
`Json` inductive; JavaScript exceptions are modelled with `Except`; telemetry
calls (`logAiEvent`, `addInputData`/`addOutputData` payload recording) are
side-effect-only and are elided from the pure embedding, since no claim
inspects the sink.
-/

/-- A JSON-like JavaScript value, as manipulated by the schema utilities. -/
inductive Json where
  | null
  | bool (b : Bool)
  | num (n : Int)
  | str (s : String)
  | arr (elems : List Json)
  | obj (fields : List (String × Json))
deriving Repr

/-- JavaScript truthiness of a `Json` value (`undefined`/`null`/`false`/`0`/
empty string are falsy; arrays and objects are always truthy). -/
def Json.truthy : Json → Bool
  | .null => false
  | .bool b => b
  | .num n => n != 0
  | .str s => s != ""
  | .arr _ => true
  | .obj _ => true

/-- Minimal JSON string escaping (backslash and double quote), standing in for
the escaping performed by `JSON.stringify` on string data. -/
def jsonEscapeChar (c : Char) : String :=
  if c = '\\' then "\\\\"
  else if c = '\"' then "\\\""
  else String.singleton c

/-- Serialization of a `Json` value, modelling `JSON.stringify`. -/
def Json.stringify : Json → String
  | .null => "null"
  | .bool true => "true"
  | .bool false => "false"
  | .num n => toString n
  | .str s => "\"" ++ String.join (s.toList.map jsonEscapeChar) ++ "\""
  | .arr elems => "[" ++ String.intercalate "," (elems.attach.map (fun e => e.1.stringify)) ++ "]"
  | .obj fields => "\x7b" ++ String.intercalate ","
      (fields.attach.map (fun kv => "\"" ++ kv.1.1 ++ "\":" ++ kv.1.2.stringify)) ++ "\x7d"
decreasing_by
  · have h := List.sizeOf_lt_of_mem e.2
    simp only [Json.arr.sizeOf_spec]
    omega
  · have h := List.sizeOf_lt_of_mem kv.2
    have h2 : sizeOf kv.1.2 < sizeOf kv.1 := by
      rcases kv with ⟨⟨a, b⟩, hm⟩
      simp
    simp only [Json.obj.sizeOf_spec]
    omega

/-- Is this `Json` value a string? (`typeof response === "string"`). -/
def Json.isString : Json → Bool
  | .str _ => true
  | _ => false

section CurlyEscaping

/-!
Embedding of `escapeSingleCurlyBrackets` (src/utils/helpers.ts, lines 188-199).

The source applies four global regex replacements in order:

1. a `\x7b`-run of length exactly 3 (not preceded or followed by `\x7b`)
   becomes a run of length 4;
2. likewise for `\x7d`;
3. a `\x7b`-run of length exactly 1 becomes a run of length 2;
4. likewise for `\x7d`.

Because of the negative lookbehind/lookahead on the same character, each regex
matches exactly the maximal runs of the given character having exactly the
given length, so each replacement is faithfully modelled by `replaceRun`,
which rewrites every maximal run of `c` of length exactly `k` to length `m`.
-/

/-- Emit a pending maximal run of `n` copies of `c`, rewriting its length to
`m` when it is exactly `k`. -/
def emitRun (c : Char) (k m n : Nat) : List Char :=
  List.replicate (if n = k then m else n) c

/-- Scanner for `replaceRun`: `n` counts the current run of `c` seen so far. -/
def replaceRunAux (c : Char) (k m : Nat) : Nat → List Char → List Char
  | n, [] => emitRun c k m n
  | n, x :: xs =>
    if x = c then replaceRunAux c k m (n + 1) xs
    else emitRun c k m n ++ x :: replaceRunAux c k m 0 xs

/-- Rewrite every maximal run of `c` of length exactly `k` to length `m`,
leaving all other characters and runs unchanged.  This is the effect of one
global replacement of the regex `(?<!c)c\x7bk\x7d(?!c)` by `c^m`. -/
def replaceRun (c : Char) (k m : Nat) (l : List Char) : List Char :=
  replaceRunAux c k m 0 l

/-- The four chained replacements of `escapeSingleCurlyBrackets`, on character
lists, in source order: triple-open, triple-close, single-open, single-close. -/
def escapeSingleCurlyList (l : List Char) : List Char :=
  replaceRun '\x7d' 1 2 (replaceRun '\x7b' 1 2
    (replaceRun '\x7d' 3 4 (replaceRun '\x7b' 3 4 l)))

/-- `escapeSingleCurlyBrackets` on a present string
(src/utils/helpers.ts, lines 188-199). -/
def escapeSingleCurlyBracketsStr (text : String) : String :=
  String.mk (escapeSingleCurlyList text.toList)

/-- `escapeSingleCurlyBrackets`, including the `undefined` pass-through. -/
def escapeSingleCurlyBrackets : Option String → Option String :=
  Option.map escapeSingleCurlyBracketsStr

/-- Behaviour asserted by the spec claim, as written: pair braces greedily and
double each leftover unpaired brace, so a maximal run of `n` braces becomes a
run of `n + n % 2`. -/
def claimedEscapeRun (p : Char × Nat) : Char × Nat :=
  if p.1 = '\x7b' ∨ p.1 = '\x7d' then (p.1, p.2 + p.2 % 2) else p

/-- Behaviour actually implemented: a maximal brace run of length 1 becomes 2,
of length 3 becomes 4, any other length is unchanged. -/
def actualEscapeRun (p : Char × Nat) : Char × Nat :=
  if p.1 = '\x7b' ∨ p.1 = '\x7d' then
    (p.1, if p.2 = 1 then 2 else if p.2 = 3 then 4 else p.2)
  else p

/-- Rebuild a string (as a character list) from its run decomposition. -/
def runsToList : List (Char × Nat) → List Char
  | [] => []
  | (c, n) :: rest => List.replicate n c ++ runsToList rest

/-- A well-formed maximal-run decomposition: every run is non-empty and
adjacent runs use distinct characters. -/
def WfRuns : List (Char × Nat) → Prop
  | [] => True
  | [(_, n)] => 0 < n
  | (c, n) :: (d, m) :: rest => 0 < n ∧ c ≠ d ∧ WfRuns ((d, m) :: rest)

/-- The claim-side escape function on whole strings: rewrite every maximal
brace run `n` to `n + n % 2`. -/
def claimedEscapeOfRuns (rs : List (Char × Nat)) : List Char :=
  runsToList (rs.map claimedEscapeRun)

/-- The run map realized by one `replaceRun c k m` pass. -/
def runMapFn (c : Char) (k m : Nat) : (Char × Nat) → (Char × Nat) :=
  fun p => if p.1 = c ∧ p.2 = k then (p.1, m) else p

end CurlyEscaping

section FailedAttemptHandlers

/-!
Embedding of `n8nDefaultFailedAttemptHandler.ts` and
`n8nLlmFailedAttemptHandler.ts`.  A JavaScript error value is modelled by the
fields the handlers inspect; absent fields are `none`.
-/

/-- The fields of an error value inspected by the failed-attempt handlers. -/
structure LlmError where
  message : Option String := none
  name : Option String := none
  code : Option String := none
  status : Option Int := none
  /-- `error.response?.status`, when a response object is present. -/
  responseStatus : Option Int := none
  retriesLeft : Option Int := none
deriving DecidableEq, Repr

/-- `STATUS_NO_RETRY` (n8nDefaultFailedAttemptHandler.ts, lines 3-13). -/
def STATUS_NO_RETRY : List Int := [400, 401, 402, 403, 404, 405, 406, 407, 409]

/-- Does `error?.message?.startsWith?.(pre)` hold? -/
def llmErrorMessageStartsWith (e : LlmError) (pre : String) : Bool :=
  (e.message.map (fun m => m.startsWith pre)).getD false

/-- `n8nDefaultFailedAttemptHandler` (lines 15-32): rethrows the error (here:
returns it in `Except.error`) exactly when it is classified non-retryable;
otherwise returns normally. -/
def n8nDefaultFailedAttemptHandler (e : LlmError) : Except LlmError Unit :=
  if llmErrorMessageStartsWith e "Cancel" ∨ llmErrorMessageStartsWith e "AbortError"
      ∨ e.name = some "AbortError" then
    .error e
  else if e.code = some "ECONNABORTED" then
    .error e
  else
    match e.responseStatus.or e.status with
    | some s => if s ≠ 0 ∧ s ∈ STATUS_NO_RETRY then .error e else .ok ()
    | none => .ok ()

/-- The non-retryable classification exactly as the spec claim words it: an
HTTP-like status among 400-407 or 409, or an explicit cancellation/abort
signal (message starting with Cancel or AbortError, name AbortError, or code
ECONNABORTED). -/
def claimNonRetryable (e : LlmError) : Bool :=
  ((e.responseStatus.or e.status).map (fun s => STATUS_NO_RETRY.contains s)).getD false
    || llmErrorMessageStartsWith e "Cancel"
    || llmErrorMessageStartsWith e "AbortError"
    || (e.name == some "AbortError")
    || (e.code == some "ECONNABORTED")

/-- The host structured error thrown by the produced failed-attempt handler:
`new NodeApiError(ctx.getNode(), e, \x7b functionality: "configuration-node" \x7d)`. -/
structure NodeApiError where
  wrapped : LlmError
  functionality : String
deriving DecidableEq, Repr

/-- The handler returned by `makeN8nLlmFailedAttemptHandler`
(n8nLlmFailedAttemptHandler.ts, lines 6-30), with the optional custom
pre-handler `custom`.  Every throw is modelled as `Except.error`. -/
def makeN8nLlmFailedAttemptHandler
    (custom : Option (LlmError → Except LlmError Unit)) (e : LlmError) :
    Except NodeApiError Unit :=
  let tryBlock : Except LlmError Unit := do
    match custom with
    | some h => h e
    | none => pure ()
    n8nDefaultFailedAttemptHandler e
  match tryBlock with
  | .error caught => .error { wrapped := caught, functionality := "configuration-node" }
  | .ok _ =>
    if (e.retriesLeft.getD 0) > 0 then .ok ()
    else .error { wrapped := e, functionality := "configuration-node" }

end FailedAttemptHandlers

section ToolDiscovery

/-!
Embedding of `getConnectedTools` (src/utils/helpers.ts, lines 205-313) and of
the tool filter inside `SapAiCoreLlm.execute`
(src/credentials/SapAiCoreApi.credentials.ts, lines 310-324).

A connected candidate is an arbitrary JavaScript value; the code only ever
inspects whether it is a non-null object, its `name`, `description`, `func`,
`call` and `_call` members, and whether it is an `N8nTool` instance.  Those
observations are the fields of `ToolObj`.  Reading the input connection
(`ctx.getInputConnectionData`) is external; the embedding starts from the
already-arrayized list of connected values.
-/

/-- The `name` member of a candidate object: absent (or otherwise falsy
`undefined`), a string, or some non-string value with the given truthiness. -/
inductive NameVal where
  | noName
  | named (s : String)
  | nonStringName (truthy : Bool)
deriving DecidableEq, Repr

/-- The observable shape of a candidate object: the members inspected by
`getConnectedTools` and by the `execute` tool filter. -/
structure ToolObj where
  name : NameVal
  description : Option String
  hasFunc : Bool
  hasCall : Bool
  hasInternalCall : Bool
  isN8nTool : Bool
deriving DecidableEq, Repr

/-- A connected candidate value: either not object-like (null, undefined, or a
primitive, with the given truthiness) or an object with observable shape. -/
inductive ToolCandidate where
  | nonObject (truthy : Bool)
  | objLike (t : ToolObj)
deriving DecidableEq, Repr

/-- An item delivered on the tool connection: a plain candidate or a
`Toolkit`, which `getConnectedTools` flattens via `getTools()`. -/
inductive ConnectedItem where
  | tool (c : ToolCandidate)
  | toolkit (tools : List ToolCandidate)
deriving DecidableEq, Repr

/-- Toolkit expansion (helpers.ts, lines 222-227): one-level `flatMap`. -/
def flattenToolkits (items : List ConnectedItem) : List ToolCandidate :=
  items.flatMap fun item =>
    match item with
    | .tool c => [c]
    | .toolkit ts => ts

/-- The valid name of a candidate, when it passes the per-tool validation of
`getConnectedTools` (lines 241-250): it must be object-like and its `name`
must be a non-empty string. -/
def validName : ToolCandidate → Option String
  | .nonObject _ => none
  | .objLike t =>
    match t.name with
    | .named s => if s = "" then none else some s
    | _ => none

/-- The discovery failure raised by `getConnectedTools`: the duplicate-name
`NodeOperationError` (lines 253-258), the only error produced by the loop
itself. -/
inductive DiscoveryError where
  | duplicateName (s : String)
deriving DecidableEq, Repr

/-- The message carried by the duplicate-name error. -/
def DiscoveryError.message : DiscoveryError → String
  | .duplicateName s =>
    "You have multiple tools with the same name: \x27" ++ s ++
      "\x27, please rename them to avoid conflicts"

/-- `tool.asDynamicTool()` (src/utils/N8nTool.ts, lines 25-31): a
`DynamicTool` with the same name and description and a callable `func` (the
`DynamicTool` base class also provides `call` and `_call`). -/
def asDynamicTool (t : ToolObj) : ToolCandidate :=
  .objLike { name := t.name, description := t.description,
             hasFunc := true, hasCall := true, hasInternalCall := true,
             isN8nTool := false }

/-- One accepted tool, after the optional description escaping
(lines 262-264) and the optional `N8nTool` conversion (lines 267-271). -/
def processOneTool (convertStructuredTool escapeCurlyBrackets : Bool)
    (t : ToolObj) : ToolCandidate :=
  let t1 :=
    if escapeCurlyBrackets ∧ (t.description.map (· != "")).getD false then
      { t with description := escapeSingleCurlyBrackets t.description }
    else t
  if convertStructuredTool ∧ t1.isN8nTool then asDynamicTool t1
  else .objLike t1

/-- The validation loop of `getConnectedTools` (lines 235-294): skip
candidates that are not object-like or lack a non-empty string name, fail on
the first duplicate valid name, and otherwise push the processed tool. -/
def processTools (convertStructuredTool escapeCurlyBrackets : Bool) :
    List ToolCandidate → List String → List ToolCandidate →
    Except DiscoveryError (List ToolCandidate)
  | [], _, acc => .ok acc.reverse
  | t :: rest, seenNames, acc =>
    match t with
    | .nonObject _ => processTools convertStructuredTool escapeCurlyBrackets rest seenNames acc
    | .objLike o =>
      match o.name with
      | .named s =>
        if s = "" then
          processTools convertStructuredTool escapeCurlyBrackets rest seenNames acc
        else if s ∈ seenNames then
          .error (.duplicateName s)
        else
          processTools convertStructuredTool escapeCurlyBrackets rest (s :: seenNames)
            (processOneTool convertStructuredTool escapeCurlyBrackets o :: acc)
      | _ => processTools convertStructuredTool escapeCurlyBrackets rest seenNames acc

/-- The pure core of `getConnectedTools` (lines 205-313), starting from the
arrayized connected items.  When `enforceUniqueNames` is false the flattened
list is returned as-is (lines 230-232); otherwise the validation loop runs. -/
def getConnectedToolsCore (items : List ConnectedItem)
    (enforceUniqueNames convertStructuredTool escapeCurlyBrackets : Bool) :
    Except DiscoveryError (List ToolCandidate) :=
  let connectedTools := flattenToolkits items
  if !enforceUniqueNames then .ok connectedTools
  else processTools convertStructuredTool escapeCurlyBrackets connectedTools [] []

/-- The per-tool filter applied by `SapAiCoreLlm.execute` right after
`getConnectedTools` (SapAiCoreApi.credentials.ts, lines 310-324): drop falsy
values, tools with a falsy `name`, and tools with none of `func`, `call`,
`_call`. -/
def executeToolFilter (tools : List ToolCandidate) : List ToolCandidate :=
  tools.filter fun t =>
    match t with
    | .nonObject truthy =>
      -- a falsy value fails `!tool`; a truthy primitive has no `name` member
      truthy && false
    | .objLike o =>
      let nameTruthy :=
        match o.name with
        | .noName => false
        | .named s => s != ""
        | .nonStringName b => b
      nameTruthy && (o.hasFunc || o.hasCall || o.hasInternalCall)

/-- The tool-discovery stage of `SapAiCoreLlm.execute` (lines 299-326):
`getConnectedTools(this, true, true)` followed by the validity filter. -/
def executeToolDiscovery (items : List ConnectedItem) :
    Except DiscoveryError (List ToolCandidate) :=
  (getConnectedToolsCore items true true false).map executeToolFilter

/-- A candidate is object-like. -/
def isObjectLike : ToolCandidate → Bool
  | .nonObject _ => false
  | .objLike _ => true

/-- A candidate carries a non-empty string `name`. -/
def hasValidStringName (t : ToolCandidate) : Bool :=
  (validName t).isSome

/-- A candidate exposes a callable invocation member: a `func` field, a
`call` method, or an internal `_call` method. -/
def hasCallableMember : ToolCandidate → Bool
  | .nonObject _ => false
  | .objLike o => o.hasFunc || o.hasCall || o.hasInternalCall

/-- How often a valid name occurs among the flattened candidates. -/
def validNameCount (s : String) (l : List ToolCandidate) : Nat :=
  (l.filterMap validName).count s

end ToolDiscovery

section Orchestrator

/-!
Embedding of the tool-calling section of `SapAiCoreLlm.execute`
(SapAiCoreApi.credentials.ts, lines 339-453).  The model endpoint is an
external collaborator; it is modelled as a record of functions, with thrown
exceptions as `Except.error` carrying the message string.
-/

/-- A tool-call directive in a model response. -/
structure ToolCall where
  id : String
  name : String
  args : Json

/-- A model response: content plus optional tool-call directives. -/
structure ModelResponse where
  content : String
  tool_calls : List ToolCall

/-- A bound tool, as used by the orchestration loop: a name and an
`invoke(args)` that may throw. -/
structure OrchTool where
  name : String
  invoke : Json → Except String Json

/-- A conversation message (role, content, optional tool-call payload and
tool-call id), as built at lines 348-351, 382-390. -/
structure ChatMessage where
  role : String
  content : String
  tool_calls : List ToolCall := []
  tool_call_id : Option String := none

/-- The model endpoint handle: `bindTools` and `invoke`, both fallible. -/
structure LlmClient where
  bindTools : List OrchTool → Except String (List ChatMessage → Except String ModelResponse)
  invoke : List ChatMessage → Except String ModelResponse

/-- One entry of `toolResults` (lines 366-377): either a recorded output or a
recorded error message, always carrying the call id and tool name. -/
inductive ToolStepResult where
  | success (tool_call_id tool_name : String) (result : Json)
  | failure (tool_call_id tool_name : String) (errorMessage : String)

/-- Does a recorded step carry an error message? -/
def ToolStepResult.isFailure : ToolStepResult → Bool
  | .success _ _ _ => false
  | .failure _ _ _ => true

/-- The call id of a recorded step. -/
def ToolStepResult.callId : ToolStepResult → String
  | .success i _ _ => i
  | .failure i _ _ => i

/-- The result record built by the execute tool section (lines 394-452).  The
source also repeats `intermediateSteps` under a `toolResults` key; it is
represented once here. -/
structure ExecResult where
  output : String
  intermediateSteps : List ToolStepResult
  toolsUsed : Nat
  executionType : String
  toolCalls : List ToolCall := []
  error : Option String := none

/-- The initial conversation (lines 348-351): system then user message. -/
def initialMessages (systemMessage userMessage : String) : List ChatMessage :=
  [{ role := "system", content := systemMessage },
   { role := "user", content := userMessage }]

/-- Resolution of one tool-call directive (lines 361-379): look the tool up
by name; when absent, record nothing; when present, record its output or, if
invocation throws, its error message. -/
def resolveToolCall (tools : List OrchTool) (tc : ToolCall) : Option ToolStepResult :=
  (tools.find? (fun t => t.name == tc.name)).map fun tool =>
    match tool.invoke tc.args with
    | .ok v => .success tc.id tc.name v
    | .error m => .failure tc.id tc.name m

/-- The recorded results of one round, in directive order. -/
def buildToolResults (tools : List OrchTool) (calls : List ToolCall) :
    List ToolStepResult :=
  calls.filterMap (resolveToolCall tools)

/-- The synthetic `tool`-role message for one recorded result (lines
385-389): errors render as `"Error: <message>"`, successes as the
JSON-serialized output. -/
def toolResultMessage (tr : ToolStepResult) : ChatMessage :=
  { role := "tool",
    content :=
      match tr with
      | .success _ _ v => v.stringify
      | .failure _ _ m => "Error: " ++ m,
    tool_call_id := some tr.callId }

/-- The assistant turn carrying the tool-call directives (line 384). -/
def assistantToolCallMessage (response : ModelResponse) : ChatMessage :=
  { role := "assistant", content := response.content,
    tool_calls := response.tool_calls }

/-- The extended conversation resubmitted to the bound model (lines 382-390). -/
def finalMessagesOf (systemMessage userMessage : String) (response : ModelResponse)
    (toolResults : List ToolStepResult) : List ChatMessage :=
  initialMessages systemMessage userMessage ++
    assistantToolCallMessage response :: toolResults.map toolResultMessage

/-- The `hasTools` branch of `execute` (lines 341-436): bind the tools,
submit, execute any requested tool calls, resubmit, and on protocol failure
fall back to one direct tool-less submission (lines 412-436). -/
def executeToolPhase (llm : LlmClient) (tools : List OrchTool)
    (systemMessage userMessage : String) : Except String ExecResult :=
  let messages := initialMessages systemMessage userMessage
  let attempt : Except String ExecResult :=
    match llm.bindTools tools with
    | .error e => .error e
    | .ok modelWithTools =>
      match modelWithTools messages with
      | .error e => .error e
      | .ok response =>
        if response.tool_calls.length > 0 then
          let toolResults := buildToolResults tools response.tool_calls
          match modelWithTools
              (finalMessagesOf systemMessage userMessage response toolResults) with
          | .error e => .error e
          | .ok finalResponse =>
            .ok { output := finalResponse.content,
                  intermediateSteps := toolResults,
                  toolsUsed := tools.length,
                  executionType := "sap_ai_core_with_tools",
                  toolCalls := response.tool_calls }
        else
          .ok { output := response.content,
                intermediateSteps := [],
                toolsUsed := tools.length,
                executionType := "sap_ai_core_direct_response" }
  match attempt with
  | .ok r => .ok r
  | .error agentError =>
    match llm.invoke messages with
    | .error e => .error e
    | .ok response =>
      .ok { output := response.content,
            intermediateSteps := [],
            toolsUsed := 0,
            executionType := "direct_llm_fallback",
            error := some ("Tool execution failed: " ++ agentError) }

/-- The whole LLM step (lines 339-453): with a non-empty tool set run the
tool phase, otherwise submit directly without tools (lines 438-453). -/
def runLlmStep (llm : LlmClient) (tools : List OrchTool)
    (systemMessage userMessage : String) : Except String ExecResult :=
  if tools.length > 0 then
    executeToolPhase llm tools systemMessage userMessage
  else
    match llm.invoke (initialMessages systemMessage userMessage) with
    | .error e => .error e
    | .ok response =>
      .ok { output := response.content,
            intermediateSteps := [],
            toolsUsed := 0,
            executionType := "sap_ai_core_direct" }

end Orchestrator

section SchemaSimplify

/-!
Embedding of `simplifySchemaForSapAiCore` (src/utils/schemaParsing.ts, lines
415-446).  The function takes an arbitrary JavaScript value: non-objects (and
falsy values) are replaced by `\x7b type: "string" \x7d`; objects are shallow-copied,
the unsupported keys are deleted, and the `properties` entries and the `items`
value are simplified recursively.
-/

/-- The keys deleted by `simplifySchemaForSapAiCore` (lines 423-429).  Note
that `$ref` is NOT among them (it is only removed by the separate
`sanitizeSchema`, lines 193-219). -/
def simplifyBannedKeys : List String :=
  ["$schema", "$id", "definitions", "allOf", "anyOf", "oneOf", "not"]

/-- Property read on an object modelled as an ordered field list. -/
def jsGet (fields : List (String × Json)) (key : String) : Option Json :=
  (fields.find? (fun kv => kv.1 == key)).map (fun kv => kv.2)

/-- Property assignment for a present key: replace the value, keep the
insertion order (JavaScript objects have at most one entry per key). -/
def setKey (fields : List (String × Json)) (key : String) (v : Json) :
    List (String × Json) :=
  fields.map (fun kv => if kv.1 == key then (kv.1, v) else kv)

/-- The index-keyed field list produced by spreading an array into an object
(`\x7b...arr\x7d`), and equally by `Object.entries` of an array. -/
def arrayIndexFields (xs : List Json) : List (String × Json) :=
  xs.enum.map (fun iv => (toString iv.1, iv.2))

/-- Membership in the field list from a successful `jsGet`. -/
theorem jsGet_mem {fields : List (String × Json)} {key : String} {v : Json}
    (h : jsGet fields key = some v) : (key, v) ∈ fields := by
  unfold jsGet at h
  rcases hf : fields.find? (fun kv => kv.1 == key) with _ | kv
  · rw [hf] at h; simp at h
  · rw [hf] at h
    simp at h
    have hmem := List.mem_of_find?_eq_some hf
    have hpred := List.find?_some hf
    simp at hpred
    rcases kv with ⟨k1, v1⟩
    simp at hpred h
    subst hpred h
    exact hmem

/-- Size bound for a value stored in an object field list. -/
theorem sizeOf_lt_of_field {fields : List (String × Json)} {key : String}
    {v : Json} (h : (key, v) ∈ fields) : sizeOf v < sizeOf (Json.obj fields) := by
  have h1 := List.sizeOf_lt_of_mem h
  have h2 : sizeOf v < sizeOf (key, v) := by simp
  simp only [Json.obj.sizeOf_spec]
  omega

/-- Size bound for an element of an array value. -/
theorem sizeOf_lt_of_elem {xs : List Json} {v : Json} (h : v ∈ xs) :
    sizeOf v < sizeOf (Json.arr xs) := by
  have h1 := List.sizeOf_lt_of_mem h
  simp only [Json.arr.sizeOf_spec]
  omega

/-- `simplifySchemaForSapAiCore` (lines 415-446).

Two inessential inlinings keep the recursion structurally decreasing, each
justified by the source semantics:

* an array input passes the `typeof schema === "object"` guard and is
  shallow-spread into an index-keyed object; none of its keys can equal a
  banned key, `properties` or `items`, so the branch is the identity on that
  object and is emitted directly;
* when the `properties` value is a truthy string, `Object.entries` yields
  single-character strings, whose recursive simplification is the constant
  `\x7b type: "string" \x7d`; that constant is emitted directly. -/
def simplifySchemaForSapAiCore : Json → Json
  | .obj fields =>
    let simplified := fields.filter (fun kv => !(simplifyBannedKeys.contains kv.1))
    let afterProps :=
      match hp : jsGet simplified "properties" with
      | some p =>
        if p.truthy then
          let newProps : List (String × Json) :=
            match hq : p with
            | .obj pfs => pfs.attach.map (fun kv => (kv.1.1, simplifySchemaForSapAiCore kv.1.2))
            | .arr xs => (xs.attach.enum).map
                (fun iv => (toString iv.1, simplifySchemaForSapAiCore iv.2.1))
            | .str s => s.toList.enum.map
                (fun ic => (toString ic.1, Json.obj [("type", Json.str "string")]))
            | .null => []
            | .bool _ => []
            | .num _ => []
          setKey simplified "properties" (Json.obj newProps)
        else simplified
      | none => simplified
    match hi : jsGet simplified "items" with
    | some it =>
      if it.truthy then Json.obj (setKey afterProps "items" (simplifySchemaForSapAiCore it))
      else Json.obj afterProps
    | none => Json.obj afterProps
  | .arr xs => Json.obj (arrayIndexFields xs)
  | _ => Json.obj [("type", Json.str "string")]
termination_by j => sizeOf j
decreasing_by
  · have hm2 : ("properties", Json.obj pfs) ∈ fields := (List.mem_filter.mp (jsGet_mem hp)).1
    have h3 := sizeOf_lt_of_field hm2
    have h4 : sizeOf (kv.1.2) < sizeOf (Json.obj pfs) := by
      rcases kv with ⟨⟨a, b⟩, hmp⟩
      exact sizeOf_lt_of_field hmp
    omega
  · have hm2 : ("properties", Json.arr xs) ∈ fields := (List.mem_filter.mp (jsGet_mem hp)).1
    have h3 := sizeOf_lt_of_field hm2
    have h4 : sizeOf (iv.2.1) < sizeOf (Json.arr xs) := sizeOf_lt_of_elem iv.2.2
    omega
  · have hm2 : ("items", it) ∈ fields := (List.mem_filter.mp (jsGet_mem hi)).1
    exact sizeOf_lt_of_field hm2

/-- Does a `Json` tree contain an object field with the given key at any
depth (descending through both object fields and array elements)? -/
def hasKeyDeep (key : String) : Json → Bool
  | .obj fs => fs.attach.any (fun kv => kv.1.1 == key || hasKeyDeep key kv.1.2)
  | .arr xs => xs.attach.any (fun v => hasKeyDeep key v.1)
  | _ => false
termination_by j => sizeOf j
decreasing_by
  · have h1 := List.sizeOf_lt_of_mem kv.2
    have h2 : sizeOf kv.1.2 < sizeOf kv.1 := by
      rcases kv with ⟨⟨a, b⟩, hm⟩
      simp
    simp only [Json.obj.sizeOf_spec]
    omega
  · have h1 := List.sizeOf_lt_of_mem v.2
    simp only [Json.arr.sizeOf_spec]
    omega

/-- No deleted keyword occurs anywhere in the tree. -/
def noBannedKeyDeep (j : Json) : Bool :=
  simplifyBannedKeys.all (fun b => !(hasKeyDeep b j))

/-- The claim domain: a schema node is an object whose `properties` value is
an object of named sub-schemas (the names themselves not being schema
keywords), whose `items` value is a sub-schema, and whose remaining values
carry no banned keyword anywhere (in particular atomic annotations such as
`type`, `description`, `required`). -/
def isSchemaTree : Json → Bool
  | .obj fs => fs.attach.all fun kv =>
      if kv.1.1 = "properties" then
        match hv : kv.1.2 with
        | .obj pfs => pfs.attach.all fun pv =>
            !(simplifyBannedKeys.contains pv.1.1) && isSchemaTree pv.1.2
        | _ => false
      else if kv.1.1 = "items" then isSchemaTree kv.1.2
      else noBannedKeyDeep kv.1.2
  | _ => false
termination_by j => sizeOf j
decreasing_by
  · have h4 : sizeOf (pv.1.2) < sizeOf (Json.obj pfs) := by
      rcases pv with ⟨⟨a, b⟩, hmp⟩
      exact sizeOf_lt_of_field hmp
    have h5 : sizeOf (kv.1.2) < sizeOf (Json.obj fs) := by
      rcases kv with ⟨⟨c, d⟩, hmf⟩
      exact sizeOf_lt_of_field hmf
    rw [hv] at h5
    omega
  · rcases kv with ⟨⟨c, d⟩, hmf⟩
    exact sizeOf_lt_of_field hmf

end SchemaSimplify

section LogWrapper

/-!
Embedding of `callMethodAsync` and the interception branches of `logWrapper`
(src/unnamed/part_003, lines 30-69 and 108-465).

Each intercepted operation is modelled by: record the input event, delegate
through `callMethodAsync`, record the output event, return the response.  The
sink calls (`addInputData`/`addOutputData`, `logAiEvent`) are fire-and-forget
and do not influence the returned value or the raised error, so they are
elided; `deepCopy` of the compressor arguments is value-equal in a pure
model.  Operation arguments are collapsed into a single `Json` value.  The
embedding models the standard execution context, i.e. one for which
`"addInputData" in executeFunctions` holds, so the instrumented path (not the
fallback path) is taken.

Receivers are modelled explicitly: `callMethodAsync` runs
`method.apply(target || null, args)` (line 42), and only the
`embedDocuments`/`embedQuery` branches (lines 282-289, 310-317) put a
`target` into the parameters — every other branch calls
`callMethodAsync.call(target, \x7b...\x7d)` without one, so their delegate runs
with `this = null`.  A delegate is therefore a function of the receiver it is
applied with, and the unwrapped "underlying operation" corresponds to the
`targetReceiver` application.

Two branches perform fallible work after the delegate returns, outside the
`callMethodAsync` normalization, so their failures surface as raw errors:

* `saveContext` awaits `target.chatHistory.getMessages()` (line 161);
* `getRelevantDocuments` evaluates `response[0]?.metadata?.executionId`
  (line 247), which throws a `TypeError` when the response is nullish
  (modelled as `Json.null`).
-/

/-- A raw JavaScript exception, as observed by `callMethodAsync`: only its
`message` is inspected. -/
structure JsError where
  message : String
deriving DecidableEq, Repr

/-- The host structured error (`NodeOperationError`) as far as the wrapper
shapes it: message, optional description, optional functionality tag. -/
structure NodeOpError where
  message : String
  description : Option String
  functionality : Option String
deriving DecidableEq, Repr

/-- The `this` value a delegate is applied with: `null`, or the wrapped
capability object itself. -/
inductive JsReceiver where
  | nullReceiver
  | targetReceiver
deriving DecidableEq, Repr

/-- The generic structured error raised when the caught error carries no
message (part_003, lines 64-67). -/
def genericNodeError (nodeName connectionType : String) : NodeOpError :=
  { message := "Error on node \"" ++ nodeName ++
      "\" which is connected via input \"" ++ connectionType ++ "\"",
    description := none, functionality := none }

/-- `callMethodAsync` (part_003, lines 30-69): apply the delegate with the
receiver from the parameters (`target || null`); on a raw throw build a
structured error tagged `configuration-node`, default its description to its
message, and raise it; when the raw error carries no message raise the
generic structured error naming the node and the connection type instead. -/
def callMethodAsync (nodeName connectionType : String)
    (method : JsReceiver → Json → Except JsError Json)
    (receiver : JsReceiver) (arg : Json) : Except NodeOpError Json :=
  match method receiver arg with
  | .ok v => .ok v
  | .error e =>
    let error : NodeOpError :=
      { message := e.message, description := none,
        functionality := some "configuration-node" }
    if error.message ≠ "" then
      .error { error with
        description :=
          match error.description with
          | some d => if d ≠ "" then some d else some error.message
          | none => some error.message }
    else
      .error (genericNodeError nodeName connectionType)

/-- The catalogue of operations intercepted by `logWrapper` (part_003, lines
117-460): memory load/save, message history read/append, retriever query,
embedder batch/single, document compressor, text splitter, tool internal
invocation, vector store similarity search. -/
inductive InterceptedOp where
  | loadMemoryVariables
  | saveContext
  | getMessages
  | addMessage
  | getRelevantDocuments
  | embedDocuments
  | embedQuery
  | compressDocuments
  | splitText
  | toolInternalCall
  | similaritySearch
deriving DecidableEq, Repr

/-- The receiver each branch hands to `callMethodAsync`: only the two
embedder branches pass `target: target` (lines 288, 316); every other branch
omits the field, so `target || null` evaluates to `null`. -/
def branchReceiver : InterceptedOp → JsReceiver
  | .embedDocuments => .targetReceiver
  | .embedQuery => .targetReceiver
  | _ => .nullReceiver

/-- An error raised by a wrapped operation: either the structured error
produced by `callMethodAsync`, or a raw error thrown by post-delegate work
outside the normalization. -/
inductive WrappedError where
  | structured (e : NodeOpError)
  | raw (e : JsError)
deriving DecidableEq, Repr

/-- Lift the `callMethodAsync` result into the wrapped error type. -/
def liftStructured : Except NodeOpError Json → Except WrappedError Json
  | .ok v => .ok v
  | .error e => .error (.structured e)

/-- The `TypeError` raised by indexing a nullish response (`response[0]`,
line 247); the exact engine text varies, a representative one is used. -/
def nullIndexError : JsError :=
  { message := "Cannot read properties of null (reading \x270\x27)" }

/-- The wrapped form of one intercepted operation.  Every branch delegates
through `callMethodAsync` with that branch\x27s receiver (`branchReceiver`) and
returns the delegate response unchanged, except:

* the tool `_call` branch (lines 394-429) returns the response only when it
  is a string and otherwise returns `JSON.stringify(response)`;
* the `addMessage` branch (lines 203-226) discards the delegate response and
  returns `undefined` (modelled as `Json.null`);
* the `saveContext` branch (lines 145-172) awaits
  `target.chatHistory.getMessages()` after the delegate succeeds — passed in
  here as `chatHistoryMessages` — and a failure of that read propagates raw;
* the `getRelevantDocuments` branch (lines 230-269) evaluates `response[0]`
  after the delegate succeeds, raising a raw `TypeError` on a nullish
  response. -/
def wrappedOperation (op : InterceptedOp) (nodeName connectionType : String)
    (method : JsReceiver → Json → Except JsError Json)
    (chatHistoryMessages : Except JsError Json) (arg : Json) :
    Except WrappedError Json :=
  match op with
  | .saveContext =>
    match callMethodAsync nodeName connectionType method .nullReceiver arg with
    | .error e => .error (.structured e)
    | .ok response =>
      match chatHistoryMessages with
      | .error e => .error (.raw e)
      | .ok _ => .ok response
  | .getRelevantDocuments =>
    match callMethodAsync nodeName connectionType method .nullReceiver arg with
    | .error e => .error (.structured e)
    | .ok response =>
      match response with
      | .null => .error (.raw nullIndexError)
      | _ => .ok response
  | .toolInternalCall =>
    match callMethodAsync nodeName connectionType method .nullReceiver arg with
    | .ok response => .ok (if response.isString then response else .str response.stringify)
    | .error e => .error (.structured e)
  | .addMessage =>
    match callMethodAsync nodeName connectionType method .nullReceiver arg with
    | .ok _ => .ok Json.null
    | .error e => .error (.structured e)
  | _ => liftStructured
      (callMethodAsync nodeName connectionType method (branchReceiver op) arg)

/-- The value the wrapper hands back for a delegate result `v`, per
operation: the identity except for the tool `_call` and `addMessage`
transforms above. -/
def wrapperReturnValue (op : InterceptedOp) (v : Json) : Json :=
  match op with
  | .toolInternalCall => if v.isString then v else .str v.stringify
  | .addMessage => Json.null
  | _ => v

/-- A tool `_call` delegate that returns the number `5` with any receiver
and never throws, used to refute the transparency claim. -/
def c6CounterMethod : JsReceiver → Json → Except JsError Json :=
  fun _ _ => .ok (Json.num 5)

/-- A receiver-dependent memory delegate: called on its object it returns a
value, called with `this = null` it throws — as a real
`loadMemoryVariables` reading its own fields would. -/
def receiverSensitiveMethod : JsReceiver → Json → Except JsError Json :=
  fun r _ =>
    match r with
    | .targetReceiver => .ok (Json.str "memory loaded")
    | .nullReceiver => .error { message := "Cannot read properties of null" }

end LogWrapper

section ConcreteInstances

/-!
Concrete collaborators used to evaluate the theorems on closed inputs.
-/

/-- A tool that returns a string output. -/
def alphaTool : OrchTool := { name := "alpha", invoke := fun _ => .ok (Json.str "a-out") }

/-- A tool whose invocation throws. -/
def betaTool : OrchTool := { name := "beta", invoke := fun _ => .error "beta exploded" }

/-- A tool that returns a numeric output. -/
def gammaTool : OrchTool := { name := "gamma", invoke := fun _ => .ok (Json.num 7) }

/-- Three directives, one per tool above. -/
def threeCalls : List ToolCall :=
  [{ id := "call-1", name := "alpha", args := Json.null },
   { id := "call-2", name := "beta", args := Json.null },
   { id := "call-3", name := "gamma", args := Json.null }]

/-- First-round model response carrying the three directives. -/
def roundOneResponse : ModelResponse := { content := "calling tools", tool_calls := threeCalls }

/-- Final-round model response. -/
def roundTwoResponse : ModelResponse := { content := "final answer", tool_calls := [] }

/-- A bound endpoint that requests the three tool calls on the initial
two-message conversation and answers directly on the extended one. -/
def demoBoundModel : List ChatMessage → Except String ModelResponse :=
  fun msgs => if msgs.length == 2 then .ok roundOneResponse else .ok roundTwoResponse

/-- An endpoint whose binding succeeds. -/
def demoLlm : LlmClient :=
  { bindTools := fun _ => .ok demoBoundModel,
    invoke := fun _ => .ok roundTwoResponse }

/-- An endpoint whose `bindTools` throws, while direct invocation works. -/
def bindFailLlm : LlmClient :=
  { bindTools := fun _ => .error "binding unsupported",
    invoke := fun _ => .ok { content := "direct answer", tool_calls := [] } }

/-- A fully valid connected tool object. -/
def validAObj : ToolObj :=
  { name := .named "a", description := some "does a",
    hasFunc := true, hasCall := false, hasInternalCall := false, isN8nTool := false }

/-- A connected object without a `name`. -/
def noNameObj : ToolObj :=
  { name := .noName, description := none,
    hasFunc := true, hasCall := false, hasInternalCall := false, isN8nTool := false }

/-- A named connected object exposing no callable invocation member. -/
def noCallableObj : ToolObj :=
  { name := .named "b", description := some "inert",
    hasFunc := false, hasCall := false, hasInternalCall := false, isN8nTool := false }

/-- A connected sequence mixing one valid tool with three invalid candidates. -/
def mixedItems : List ConnectedItem :=
  [.tool (.objLike validAObj), .tool (.nonObject true),
   .tool (.objLike noNameObj), .tool (.objLike noCallableObj)]

/-- A schema node carrying a `$ref` alongside an ordinary annotation. -/
def refSchema : Json :=
  Json.obj [("type", Json.str "object"), ("$ref", Json.str "#/definitions/a")]

/-- A property sub-schema carrying an `allOf` keyword. -/
def xPropSchema : Json :=
  Json.obj [("allOf", Json.null), ("type", Json.str "string")]

/-- An `items` sub-schema carrying a `$schema` keyword. -/
def itemsSchema : Json :=
  Json.obj [("$schema", Json.str "draft")]

/-- A schema tree with banned keywords at several depths. -/
def nestedSchema : Json :=
  Json.obj [("type", Json.str "object"),
            ("oneOf", Json.null),
            ("properties", Json.obj [("x", xPropSchema)]),
            ("items", itemsSchema)]

/-- First bearer of the duplicated name. -/
def dupFirstObj : ToolObj :=
  { name := .named "dup", description := some "first",
    hasFunc := true, hasCall := false, hasInternalCall := false, isN8nTool := false }

/-- Second bearer of the duplicated name, delivered inside a toolkit. -/
def dupSecondObj : ToolObj :=
  { name := .named "dup", description := some "second",
    hasFunc := true, hasCall := false, hasInternalCall := false, isN8nTool := false }

/-- A connected sequence with a duplicated tool name, the second occurrence
coming from a toolkit, followed by a further valid tool. -/
def duplicateItems : List ConnectedItem :=
  [.tool (.objLike dupFirstObj),
   .toolkit [.objLike dupSecondObj],
   .tool (.objLike validAObj)]

end ConcreteInstances

/-! ## Theorems -/

section FailedAttemptTheorems

theorem mem_STATUS_NO_RETRY_ne_zero {s : Int} (h : s ∈ STATUS_NO_RETRY) : s ≠ 0 := by
  simp [STATUS_NO_RETRY] at h
  omega

/-- Shared characterization of the classification hook against the claimed
non-retryable set. -/
theorem defaultHandler_classifier_eq (e : LlmError) :
    n8nDefaultFailedAttemptHandler e =
      (if claimNonRetryable e then .error e else .ok ()) := by
  unfold n8nDefaultFailedAttemptHandler claimNonRetryable
  cases hA : llmErrorMessageStartsWith e "Cancel" <;>
    cases hB : llmErrorMessageStartsWith e "AbortError" <;>
      by_cases hC : e.name = some "AbortError" <;>
        by_cases hD : e.code = some "ECONNABORTED" <;>
          rcases hS : e.responseStatus.or e.status with _ | s <;>
            simp [hA, hB, hC, hD, hS]
  by_cases hmem : s ∈ STATUS_NO_RETRY
  · rw [if_pos ⟨mem_STATUS_NO_RETRY_ne_zero hmem, hmem⟩, if_pos hmem]
  · rw [if_neg (fun hcon => hmem hcon.2), if_neg hmem]

/-- C8: the classification hook rethrows (marks non-retryable) exactly the
errors matching the claimed status list or a cancellation/abort signal; every
other error is left retryable. -/
theorem n8nDefaultFailedAttemptHandler_classifies (e : LlmError) :
    n8nDefaultFailedAttemptHandler e =
      (if claimNonRetryable e then .error e else .ok ()) :=
  defaultHandler_classifier_eq e

theorem n8nDefaultFailedAttemptHandler_error_eq {e x : LlmError}
    (h : n8nDefaultFailedAttemptHandler e = .error x) : x = e := by
  rw [defaultHandler_classifier_eq] at h
  split_ifs at h
  exact ((Except.error.injEq _ _).mp h).symm

/-- C10: the produced failed-attempt handler returns normally exactly when
the default classifier leaves the error retryable (the classification of the
`defaultHandler_classifier_eq` characterization) and `retriesLeft` is
positive; in every other case it throws the structured `NodeApiError` tagged
`configuration-node`, wrapping the original error. -/
theorem makeN8nLlmFailedAttemptHandler_spec (e : LlmError) :
    makeN8nLlmFailedAttemptHandler none e =
      (if claimNonRetryable e = false ∧ 0 < e.retriesLeft.getD 0
       then .ok ()
       else .error { wrapped := e, functionality := "configuration-node" }) := by
  unfold makeN8nLlmFailedAttemptHandler
  simp only [bind, pure, Except.bind, Except.pure]
  rw [defaultHandler_classifier_eq]
  cases hc : claimNonRetryable e
  · by_cases hr : 0 < e.retriesLeft.getD 0 <;> simp [hr]
  · simp

end FailedAttemptTheorems

section ToolDiscoveryTheorems

/-- C9: with `enforceUniqueNames` false, `getConnectedTools` returns the
toolkit-flattened connected list unchanged — no validation, no duplicate
check, no description escaping and no `N8nTool` conversion — whatever the
`convertStructuredTool` and `escapeCurlyBrackets` flags are. -/
theorem getConnectedToolsCore_no_enforce (items : List ConnectedItem)
    (convertStructuredTool escapeCurlyBrackets : Bool) :
    getConnectedToolsCore items false convertStructuredTool escapeCurlyBrackets =
      .ok (flattenToolkits items) := rfl

theorem validName_processOneTool (c e : Bool) (o : ToolObj) :
    validName (processOneTool c e o) = validName (.objLike o) := by
  cases hn : o.name <;>
    (simp only [processOneTool, asDynamicTool]
     split_ifs <;> simp [validName, hn])

/-- The validation loop succeeds only when the valid names it will inspect
are pairwise distinct and fresh with respect to the seen set. -/
theorem processTools_ok_nodup (c e : Bool) :
    ∀ (ts : List ToolCandidate) (seen : List String) (acc out : List ToolCandidate),
      processTools c e ts seen acc = .ok out →
      (ts.filterMap validName).Nodup ∧ ∀ s ∈ ts.filterMap validName, s ∉ seen := by
  intro ts
  induction ts with
  | nil => intro seen acc out _; simp
  | cons t rest ih =>
    intro seen acc out h
    cases t with
    | nonObject b =>
      simp only [processTools] at h
      simpa [validName] using ih seen acc out h
    | objLike o =>
      obtain ⟨nm, ds, f1, f2, f3, f4⟩ := o
      cases nm with
      | noName =>
        simp only [processTools] at h
        simpa [validName] using ih seen acc out h
      | nonStringName bb =>
        simp only [processTools] at h
        simpa [validName] using ih seen acc out h
      | named s =>
        simp only [processTools] at h
        by_cases hs : s = ""
        · rw [if_pos hs] at h
          simpa [validName, hs] using ih seen acc out h
        · rw [if_neg hs] at h
          by_cases hseen : s ∈ seen
          · rw [if_pos hseen] at h
            exact Except.noConfusion h
          · rw [if_neg hseen] at h
            obtain ⟨hnd, hfresh⟩ := ih (s :: seen) _ out h
            have hvn : validName (ToolCandidate.objLike ⟨.named s, ds, f1, f2, f3, f4⟩) = some s := by
              simp [validName, hs]
            rw [List.filterMap_cons, hvn]
            constructor
            · refine List.Nodup.cons ?_ hnd
              intro hmem
              exact (hfresh s hmem) (List.mem_cons_self _ _)
            · intro x hx
              rcases List.mem_cons.mp hx with hx1 | hx2
              · exact hx1 ▸ hseen
              · intro hxin
                exact (hfresh x hx2) (List.mem_cons_of_mem _ hxin)

/-- When the validation loop fails, the failure is a duplicate-name error
whose name either was already seen or occurs at least twice among the valid
names of the remaining candidates. -/
theorem processTools_error_dup (c e : Bool) :
    ∀ (ts : List ToolCandidate) (seen : List String) (acc : List ToolCandidate)
      (s : String),
      processTools c e ts seen acc = .error (.duplicateName s) →
      (s ∈ seen ∧ s ∈ ts.filterMap validName) ∨
        2 ≤ (ts.filterMap validName).count s := by
  intro ts
  induction ts with
  | nil => intro seen acc s h; exact Except.noConfusion h
  | cons t rest ih =>
    intro seen acc s h
    cases t with
    | nonObject b =>
      simp only [processTools] at h
      simpa [validName] using ih seen acc s h
    | objLike o =>
      obtain ⟨nm, ds, f1, f2, f3, f4⟩ := o
      cases nm with
      | noName =>
        simp only [processTools] at h
        simpa [validName] using ih seen acc s h
      | nonStringName bb =>
        simp only [processTools] at h
        simpa [validName] using ih seen acc s h
      | named s2 =>
        simp only [processTools] at h
        by_cases hs : s2 = ""
        · rw [if_pos hs] at h
          simpa [validName, hs] using ih seen acc s h
        · rw [if_neg hs] at h
          have hvn : validName (ToolCandidate.objLike ⟨.named s2, ds, f1, f2, f3, f4⟩) = some s2 := by
            simp [validName, hs]
          by_cases hseen : s2 ∈ seen
          · rw [if_pos hseen] at h
            have hss : s = s2 := by
              have h2 := (Except.error.injEq _ _).mp h
              exact ((DiscoveryError.duplicateName.injEq _ _).mp h2.symm)
            subst hss
            left
            refine ⟨hseen, ?_⟩
            rw [List.filterMap_cons, hvn]
            exact List.mem_cons_self _ _
          · rw [if_neg hseen] at h
            rcases ih (s2 :: seen) _ s h with ⟨hin, hmem⟩ | hcount
            · rcases List.mem_cons.mp hin with heq | hin2
              · subst heq
                right
                rw [List.filterMap_cons, hvn, List.count_cons_self]
                have hpos : 1 ≤ (rest.filterMap validName).count s :=
                  List.count_pos_iff.mpr hmem
                omega
              · left
                refine ⟨hin2, ?_⟩
                rw [List.filterMap_cons, hvn]
                exact List.mem_cons_of_mem _ hmem
            · right
              rw [List.filterMap_cons, hvn, List.count_cons]
              omega

/-- Members of a successful validation-loop output all carry a valid name,
provided the accumulator members do. -/
theorem processTools_ok_members (c e : Bool) :
    ∀ (ts : List ToolCandidate) (seen : List String) (acc out : List ToolCandidate),
      (∀ t ∈ acc, (validName t).isSome = true) →
      processTools c e ts seen acc = .ok out →
      ∀ t ∈ out, (validName t).isSome = true := by
  intro ts
  induction ts with
  | nil =>
    intro seen acc out hacc h t ht
    have hrev : out = acc.reverse := by
      have h2 := (Except.ok.injEq (ε := DiscoveryError) _ _).mp h
      exact h2.symm
    subst hrev
    exact hacc t (List.mem_reverse.mp ht)
  | cons t0 rest ih =>
    intro seen acc out hacc h t ht
    cases t0 with
    | nonObject b =>
      simp only [processTools] at h
      exact ih seen acc out hacc h t ht
    | objLike o =>
      obtain ⟨nm, ds, f1, f2, f3, f4⟩ := o
      cases nm with
      | noName =>
        simp only [processTools] at h
        exact ih seen acc out hacc h t ht
      | nonStringName bb =>
        simp only [processTools] at h
        exact ih seen acc out hacc h t ht
      | named s2 =>
        simp only [processTools] at h
        by_cases hs : s2 = ""
        · rw [if_pos hs] at h
          exact ih seen acc out hacc h t ht
        · rw [if_neg hs] at h
          by_cases hseen : s2 ∈ seen
          · rw [if_pos hseen] at h
            exact Except.noConfusion h
          · rw [if_neg hseen] at h
            refine ih _ _ out ?_ h t ht
            intro t2 ht2
            rcases List.mem_cons.mp ht2 with heq | hin
            · subst heq
              rw [validName_processOneTool]
              simp [validName, hs]
            · exact hacc t2 hin

/-- C4: duplicate-name discovery failure is atomic: whenever the flattened
connected list contains two candidates with the same valid (non-empty
string) name, `getConnectedTools` with uniqueness enforcement fails with a
duplicate-name error naming a duplicated tool, returning no tools at all,
regardless of the remaining flags and of the validity of later tools. -/
theorem getConnectedTools_duplicate_atomic (items : List ConnectedItem)
    (c e : Bool) (s : String)
    (hdup : 2 ≤ validNameCount s (flattenToolkits items)) :
    ∃ s2, 2 ≤ validNameCount s2 (flattenToolkits items) ∧
      getConnectedToolsCore items true c e = .error (.duplicateName s2) := by
  have hcore : getConnectedToolsCore items true c e =
      processTools c e (flattenToolkits items) [] [] := rfl
  rcases hres : processTools c e (flattenToolkits items) [] [] with err | out
  · cases err with
    | duplicateName s2 =>
      rcases processTools_error_dup c e _ [] [] s2 hres with ⟨hmem, _⟩ | hcount
      · exact absurd hmem (List.not_mem_nil _)
      · exact ⟨s2, hcount, by rw [hcore, hres]⟩
  · exfalso
    have hnd := (processTools_ok_nodup c e _ [] [] out hres).1
    have hc1 := (List.nodup_iff_count_le_one.mp hnd) s
    unfold validNameCount at hdup
    omega

/-- C5: per-tool validation filtering over the execute discovery pipeline
(`getConnectedTools(ctx, true, true)` followed by the callable filter): every
returned tool is object-like with a non-empty string name and a callable
member (so invalid candidates are excluded), and the only possible discovery
failure is the duplicate-name error. -/
theorem executeToolDiscovery_validation_filtering (items : List ConnectedItem) :
    (∀ out, executeToolDiscovery items = .ok out →
      ∀ t ∈ out, isObjectLike t = true ∧ hasValidStringName t = true ∧
        hasCallableMember t = true) ∧
    (∀ err, executeToolDiscovery items = .error err →
      ∃ s, err = .duplicateName s ∧
        2 ≤ validNameCount s (flattenToolkits items)) := by
  have hcore : executeToolDiscovery items =
      (processTools true false (flattenToolkits items) [] []).map executeToolFilter := rfl
  constructor
  · intro out hout t ht
    rw [hcore] at hout
    rcases hres : processTools true false (flattenToolkits items) [] [] with err | out0 <;>
      rw [hres] at hout
    · exact Except.noConfusion hout
    · have hout2 : out = executeToolFilter out0 := by
        have := (Except.ok.injEq (ε := DiscoveryError) _ _).mp hout
        exact this.symm
      subst hout2
      obtain ⟨hin0, hpred⟩ := List.mem_filter.mp ht
      have hvalid := processTools_ok_members true false _ [] [] out0 (by simp) hres t hin0
      refine ⟨?_, hvalid, ?_⟩
      · cases t with
        | nonObject b => simp [validName] at hvalid
        | objLike o => rfl
      · cases t with
        | nonObject b => simp [validName] at hvalid
        | objLike o =>
          simp only [executeToolFilter, Bool.and_eq_true] at hpred
          exact hpred.2
  · intro err herr
    rw [hcore] at herr
    rcases hres : processTools true false (flattenToolkits items) [] [] with err0 | out0 <;>
      rw [hres] at herr
    · have herr2 : err0 = err := by
        have := (Except.error.injEq _ _).mp herr
        exact this
      subst herr2
      cases err0 with
      | duplicateName s2 =>
        rcases processTools_error_dup true false _ [] [] s2 hres with ⟨hmem, _⟩ | hcount
        · exact absurd hmem (List.not_mem_nil _)
        · exact ⟨s2, rfl, hcount⟩
    · exact Except.noConfusion herr

/-- Witness for the duplicate-name atomicity theorem at a concrete connected
sequence carrying the name `dup` twice (once through a toolkit). -/
theorem getConnectedTools_duplicate_witness :
    ∃ s2, 2 ≤ validNameCount s2 (flattenToolkits duplicateItems) ∧
      getConnectedToolsCore duplicateItems true true false =
        .error (.duplicateName s2) :=
  getConnectedTools_duplicate_atomic duplicateItems true false "dup" (by decide)

/-- Witness for the validation-filtering theorem at a concrete mixed
sequence: the pipeline returns exactly the one valid tool and the theorem
certifies its shape. -/
theorem executeToolDiscovery_filtering_witness :
    isObjectLike (ToolCandidate.objLike validAObj) = true ∧
    hasValidStringName (ToolCandidate.objLike validAObj) = true ∧
    hasCallableMember (ToolCandidate.objLike validAObj) = true :=
  (executeToolDiscovery_validation_filtering mixedItems).1
    [ToolCandidate.objLike validAObj] rfl (ToolCandidate.objLike validAObj) (by decide)

end ToolDiscoveryTheorems

section OrchestratorTheorems

theorem tool_execution_failed_prefix_ne_empty (s : String) :
    "Tool execution failed: " ++ s ≠ "" := by
  intro h
  have h2 := congrArg String.length h
  rw [String.length_append] at h2
  have h3 : String.length "Tool execution failed: " = 23 := rfl
  have h4 : String.length "" = 0 := rfl
  omega

/-- C2: with a non-empty tool set, if `bindTools` or the first `invoke` on
the tool-bound endpoint throws, the step does not propagate that exception:
it resubmits the original conversation to the unbound model and (the fallback
submission succeeding with `resp`) returns the fallback result with
`toolsUsed = 0` and a non-empty error message. -/
theorem runLlmStep_fallback_on_protocol_failure (llm : LlmClient)
    (tools : List OrchTool) (systemMessage userMessage : String)
    (resp : ModelResponse)
    (hne : tools ≠ [])
    (hfail : (∃ em, llm.bindTools tools = .error em) ∨
      (∃ bound em, llm.bindTools tools = .ok bound ∧
        bound (initialMessages systemMessage userMessage) = .error em))
    (hfb : llm.invoke (initialMessages systemMessage userMessage) = .ok resp) :
    ∃ r, runLlmStep llm tools systemMessage userMessage = .ok r ∧
      r.toolsUsed = 0 ∧
      r.executionType = "direct_llm_fallback" ∧
      r.output = resp.content ∧
      ∃ msg, r.error = some msg ∧ msg ≠ "" := by
  have hlen : tools.length > 0 := List.length_pos.mpr hne
  unfold runLlmStep
  rw [if_pos hlen]
  unfold executeToolPhase
  rcases hfail with ⟨em, hb⟩ | ⟨bound, em, hb, hi⟩
  · rw [hb]
    simp only [hfb]
    exact ⟨_, rfl, rfl, rfl, rfl, _, rfl, tool_execution_failed_prefix_ne_empty em⟩
  · rw [hb]
    simp only [hi, hfb]
    exact ⟨_, rfl, rfl, rfl, rfl, _, rfl, tool_execution_failed_prefix_ne_empty em⟩

/-- C1: in a round whose first response carries exactly three tool-call
directives, each resolving against the bound tool set, with exactly one
recorded invocation failing, the round still completes: the result has
exactly the three recorded steps (one error, two outputs) and the final
answer comes from resubmitting the extended conversation. -/
theorem executeToolPhase_per_tool_isolation (llm : LlmClient)
    (tools : List OrchTool) (systemMessage userMessage : String)
    (bound : List ChatMessage → Except String ModelResponse)
    (response finalResponse : ModelResponse)
    (tc1 tc2 tc3 : ToolCall) (r1 r2 r3 : ToolStepResult)
    (hb : llm.bindTools tools = .ok bound)
    (h0 : bound (initialMessages systemMessage userMessage) = .ok response)
    (hc : response.tool_calls = [tc1, tc2, tc3])
    (h1 : resolveToolCall tools tc1 = some r1)
    (h2 : resolveToolCall tools tc2 = some r2)
    (h3 : resolveToolCall tools tc3 = some r3)
    (herr : ([r1, r2, r3].countP ToolStepResult.isFailure) = 1)
    (hfin : bound (finalMessagesOf systemMessage userMessage response [r1, r2, r3]) =
      .ok finalResponse) :
    ∃ res, executeToolPhase llm tools systemMessage userMessage = .ok res ∧
      res.intermediateSteps = [r1, r2, r3] ∧
      res.intermediateSteps.length = 3 ∧
      res.intermediateSteps.countP ToolStepResult.isFailure = 1 ∧
      (res.intermediateSteps.filter (fun r => !r.isFailure)).length = 2 ∧
      res.output = finalResponse.content ∧
      res.executionType = "sap_ai_core_with_tools" := by
  have hres : buildToolResults tools response.tool_calls = [r1, r2, r3] := by
    rw [hc]
    simp [buildToolResults, List.filterMap_cons, h1, h2, h3]
  have hfilt : (List.filter (fun r => !r.isFailure) [r1, r2, r3]).length = 2 := by
    cases hf1 : r1.isFailure <;> cases hf2 : r2.isFailure <;> cases hf3 : r3.isFailure <;>
      simp [List.countP_cons, List.filter_cons, hf1, hf2, hf3] at herr ⊢
  have hlen : response.tool_calls.length > 0 := by rw [hc]; simp
  unfold executeToolPhase
  simp only [hb, h0, if_pos hlen, hres, hfin]
  exact ⟨_, rfl, rfl, by simp, by simpa using herr, hfilt, rfl, rfl⟩

/-- Witness for the fallback theorem at a concrete endpoint whose binding
throws. -/
theorem runLlmStep_fallback_witness :
    ∃ r, runLlmStep bindFailLlm [alphaTool] "sys" "usr" = .ok r ∧
      r.toolsUsed = 0 ∧
      r.executionType = "direct_llm_fallback" ∧
      r.output = ModelResponse.content { content := "direct answer", tool_calls := [] } ∧
      ∃ msg, r.error = some msg ∧ msg ≠ "" :=
  runLlmStep_fallback_on_protocol_failure bindFailLlm [alphaTool] "sys" "usr"
    { content := "direct answer", tool_calls := [] }
    (List.cons_ne_nil _ _)
    (Or.inl ⟨"binding unsupported", rfl⟩)
    rfl

/-- Witness for the per-tool isolation theorem at a concrete three-directive
round in which exactly the second tool throws. -/
theorem executeToolPhase_isolation_witness :
    ∃ res, executeToolPhase demoLlm [alphaTool, betaTool, gammaTool] "sys" "usr" = .ok res ∧
      res.intermediateSteps =
        [ToolStepResult.success "call-1" "alpha" (Json.str "a-out"),
         ToolStepResult.failure "call-2" "beta" "beta exploded",
         ToolStepResult.success "call-3" "gamma" (Json.num 7)] ∧
      res.intermediateSteps.length = 3 ∧
      res.intermediateSteps.countP ToolStepResult.isFailure = 1 ∧
      (res.intermediateSteps.filter (fun r => !r.isFailure)).length = 2 ∧
      res.output = roundTwoResponse.content ∧
      res.executionType = "sap_ai_core_with_tools" :=
  executeToolPhase_per_tool_isolation demoLlm [alphaTool, betaTool, gammaTool] "sys" "usr"
    demoBoundModel roundOneResponse roundTwoResponse
    { id := "call-1", name := "alpha", args := Json.null }
    { id := "call-2", name := "beta", args := Json.null }
    { id := "call-3", name := "gamma", args := Json.null }
    (ToolStepResult.success "call-1" "alpha" (Json.str "a-out"))
    (ToolStepResult.failure "call-2" "beta" "beta exploded")
    (ToolStepResult.success "call-3" "gamma" (Json.num 7))
    rfl rfl rfl rfl rfl rfl (by decide) rfl

end OrchestratorTheorems

section LogWrapperTheorems

theorem callMethodAsync_ok {method : JsReceiver → Json → Except JsError Json}
    {receiver : JsReceiver} {arg v : Json} (nodeName connectionType : String)
    (h : method receiver arg = .ok v) :
    callMethodAsync nodeName connectionType method receiver arg = .ok v := by
  unfold callMethodAsync
  rw [h]

theorem callMethodAsync_error {method : JsReceiver → Json → Except JsError Json}
    {receiver : JsReceiver} {arg : Json} {e : JsError}
    (nodeName connectionType : String) (h : method receiver arg = .error e)
    (hne : e.message ≠ "") :
    callMethodAsync nodeName connectionType method receiver arg =
      .error { message := e.message, description := some e.message,
               functionality := some "configuration-node" } := by
  unfold callMethodAsync
  rw [h]
  simp [hne]

theorem callMethodAsync_error_empty {method : JsReceiver → Json → Except JsError Json}
    {receiver : JsReceiver} {arg : Json} {e : JsError}
    (nodeName connectionType : String) (h : method receiver arg = .error e)
    (hemp : e.message = "") :
    callMethodAsync nodeName connectionType method receiver arg =
      .error (genericNodeError nodeName connectionType) := by
  unfold callMethodAsync
  rw [h]
  simp [hemp]

/-- C6 (amended): the wrapper invokes each delegate with the receiver its
branch actually passes — `null` everywhere except the two embedder branches —
so transparency is relative to that invocation.  Given the branch delegate
invocation: the returned value passes through unchanged for every operation
except the tool `_call` (string kept, non-string replaced by its JSON
serialization) and `addMessage` (no value returned); the `saveContext`
wrapper re-throws a failure of its post-delegate `chatHistory.getMessages()`
read raw, and the `getRelevantDocuments` wrapper throws a raw `TypeError` on
a nullish delegate response; a delegate throw with a message becomes the
structured `configuration-node` error whose message and description are that
message, and a message-less throw becomes the generic structured node
error. -/
theorem logWrapper_interception_transparency (nodeName connectionType : String)
    (method : JsReceiver → Json → Except JsError Json)
    (chatHistoryMessages : Except JsError Json) (arg : Json) :
    (∀ (op : InterceptedOp) (v : Json), method (branchReceiver op) arg = .ok v →
      op ≠ .saveContext → op ≠ .getRelevantDocuments →
      wrappedOperation op nodeName connectionType method chatHistoryMessages arg =
        .ok (wrapperReturnValue op v)) ∧
    (∀ (v w : Json), method .nullReceiver arg = .ok v →
      chatHistoryMessages = .ok w →
      wrappedOperation .saveContext nodeName connectionType method
        chatHistoryMessages arg = .ok v) ∧
    (∀ (v : Json) (e : JsError), method .nullReceiver arg = .ok v →
      chatHistoryMessages = .error e →
      wrappedOperation .saveContext nodeName connectionType method
        chatHistoryMessages arg = .error (.raw e)) ∧
    (∀ (v : Json), method .nullReceiver arg = .ok v → v ≠ Json.null →
      wrappedOperation .getRelevantDocuments nodeName connectionType method
        chatHistoryMessages arg = .ok v) ∧
    (method .nullReceiver arg = .ok Json.null →
      wrappedOperation .getRelevantDocuments nodeName connectionType method
        chatHistoryMessages arg = .error (.raw nullIndexError)) ∧
    (∀ (op : InterceptedOp) (e : JsError),
      method (branchReceiver op) arg = .error e → e.message ≠ "" →
      wrappedOperation op nodeName connectionType method chatHistoryMessages arg =
        .error (.structured { message := e.message, description := some e.message,
                              functionality := some "configuration-node" })) ∧
    (∀ (op : InterceptedOp) (e : JsError),
      method (branchReceiver op) arg = .error e → e.message = "" →
      wrappedOperation op nodeName connectionType method chatHistoryMessages arg =
        .error (.structured (genericNodeError nodeName connectionType))) := by
  refine ⟨?_, ?_, ?_, ?_, ?_, ?_, ?_⟩
  · intro op v hm hns hnr
    cases op <;> first
      | exact absurd rfl hns
      | exact absurd rfl hnr
      | (have hc := callMethodAsync_ok nodeName connectionType hm
         simp only [branchReceiver] at hc
         simp [wrappedOperation, wrapperReturnValue, liftStructured, branchReceiver, hc])
  · intro v w hm hch
    have hc := callMethodAsync_ok nodeName connectionType hm
    simp [wrappedOperation, hc, hch]
  · intro v e hm hch
    have hc := callMethodAsync_ok nodeName connectionType hm
    simp [wrappedOperation, hc, hch]
  · intro v hm hv
    have hc := callMethodAsync_ok nodeName connectionType hm
    cases v with
    | null => exact absurd rfl hv
    | bool b => simp [wrappedOperation, hc]
    | num n => simp [wrappedOperation, hc]
    | str s => simp [wrappedOperation, hc]
    | arr xs => simp [wrappedOperation, hc]
    | obj fs => simp [wrappedOperation, hc]
  · intro hm
    have hc := callMethodAsync_ok nodeName connectionType hm
    simp [wrappedOperation, hc]
  · intro op e hm hne
    have hc := callMethodAsync_error nodeName connectionType hm hne
    cases op <;>
      (simp only [branchReceiver] at hc
       simp [wrappedOperation, liftStructured, branchReceiver, hc])
  · intro op e hm hemp
    have hc := callMethodAsync_error_empty nodeName connectionType hm hemp
    cases op <;>
      (simp only [branchReceiver] at hc
       simp [wrappedOperation, liftStructured, branchReceiver, hc])

/-- Witness for the transparency theorem: a history read passes its value
through, a text-splitter throw surfaces as the structured
`configuration-node` error, and a failing post-delegate `chatHistory` read
in `saveContext` surfaces raw. -/
theorem logWrapper_transparency_witness :
    wrappedOperation .getMessages "node" "ai_memory"
        (fun _ _ => .ok (Json.str "history")) (.ok Json.null) Json.null =
      .ok (Json.str "history") ∧
    wrappedOperation .splitText "node" "ai_textSplitter"
        (fun _ _ => .error { message := "boom" }) (.ok Json.null) (Json.str "text") =
      .error (.structured { message := "boom", description := some "boom",
                            functionality := some "configuration-node" }) ∧
    wrappedOperation .saveContext "node" "ai_memory"
        (fun _ _ => .ok (Json.str "saved"))
        (.error { message := "no chatHistory" }) Json.null =
      .error (.raw { message := "no chatHistory" }) :=
  ⟨(logWrapper_interception_transparency "node" "ai_memory"
      (fun _ _ => .ok (Json.str "history")) (.ok Json.null) Json.null).1
      .getMessages (Json.str "history") rfl (by decide) (by decide),
   (logWrapper_interception_transparency "node" "ai_textSplitter"
      (fun _ _ => .error { message := "boom" }) (.ok Json.null) (Json.str "text")).2.2.2.2.2.1
      .splitText { message := "boom" } rfl (by decide),
   (logWrapper_interception_transparency "node" "ai_memory"
      (fun _ _ => .ok (Json.str "saved"))
      (.error { message := "no chatHistory" }) Json.null).2.2.1
      (Json.str "saved") { message := "no chatHistory" } rfl rfl⟩

/-- Counterexample to C6 as stated, at two concrete capability/operation
pairs: a tool `_call` whose delegate returns the number `5` comes back as
the string `"5"` from the wrapped call, and a receiver-dependent memory
`loadMemoryVariables` whose underlying (target-bound) call returns a value
has its wrapped call throw, because the branch applies the delegate with
`this = null`. -/
theorem logWrapper_transparency_counterexample :
    c6CounterMethod (branchReceiver .toolInternalCall) Json.null = .ok (Json.num 5) ∧
    wrappedOperation .toolInternalCall "node" "ai_tool" c6CounterMethod
      (.ok Json.null) Json.null = .ok (Json.str "5") ∧
    Json.str "5" ≠ Json.num 5 ∧
    receiverSensitiveMethod .targetReceiver Json.null = .ok (Json.str "memory loaded") ∧
    wrappedOperation .loadMemoryVariables "node" "ai_memory" receiverSensitiveMethod
      (.ok Json.null) Json.null =
      .error (.structured { message := "Cannot read properties of null",
                            description := some "Cannot read properties of null",
                            functionality := some "configuration-node" }) := by
  refine ⟨rfl, ?_, fun h => Json.noConfusion h, rfl, ?_⟩
  · have hstr : (Json.num 5).stringify = "5" := by
      simp [Json.stringify]
      rfl
    simp [wrappedOperation, callMethodAsync, c6CounterMethod, Json.isString, hstr]
  · rfl

end LogWrapperTheorems

section SchemaTheorems

theorem properties_not_banned : "properties" ∉ simplifyBannedKeys := by decide

theorem items_not_banned : "items" ∉ simplifyBannedKeys := by decide

theorem key_ne_banned_of_contains_false {k b : String}
    (hc : simplifyBannedKeys.contains k = false) (hb : b ∈ simplifyBannedKeys) :
    k ≠ b := by
  intro hkb
  subst hkb
  have h2 : simplifyBannedKeys.elem k = true := List.elem_iff.mpr hb
  rw [show simplifyBannedKeys.contains k = simplifyBannedKeys.elem k from rfl, h2] at hc
  exact Bool.noConfusion hc

theorem jsGet_eq_none {fields : List (String × Json)} {key : String}
    (h : jsGet fields key = none) : ∀ kv ∈ fields, kv.1 ≠ key := by
  intro kv hkv
  unfold jsGet at h
  rcases hf : fields.find? (fun kv => kv.1 == key) with _ | kv0
  · have h2 := List.find?_eq_none.mp hf kv hkv
    simpa using h2
  · rw [hf] at h
    simp at h

theorem mem_setKey_cases {fs : List (String × Json)} {k : String} {v : Json}
    {kv : String × Json} (h : kv ∈ setKey fs k v) :
    (kv.1 = k ∧ kv.2 = v) ∨ (kv ∈ fs ∧ kv.1 ≠ k) := by
  unfold setKey at h
  rcases List.mem_map.mp h with ⟨kv0, hkv0, heq⟩
  by_cases hbeq : kv0.1 = k
  · rw [if_pos (by simpa using hbeq)] at heq
    left
    rw [← heq]
    exact ⟨hbeq, rfl⟩
  · rw [if_neg (by simpa using hbeq)] at heq
    right
    rw [← heq]
    exact ⟨hkv0, hbeq⟩

theorem hasKeyDeep_obj_eq_false {b : String} {fs : List (String × Json)} :
    hasKeyDeep b (Json.obj fs) = false ↔
      ∀ kv ∈ fs, kv.1 ≠ b ∧ hasKeyDeep b kv.2 = false := by
  simp only [hasKeyDeep]
  constructor
  · intro h kv hkv
    rw [List.any_eq_false] at h
    have h2 := h ⟨kv, hkv⟩ (List.mem_attach _ _)
    simpa using h2
  · intro h
    rw [List.any_eq_false]
    intro x _
    have h2 := h x.1 x.2
    simpa using h2

theorem noBannedKeyDeep_spec {v : Json} (h : noBannedKeyDeep v = true)
    {b : String} (hb : b ∈ simplifyBannedKeys) : hasKeyDeep b v = false := by
  unfold noBannedKeyDeep at h
  rw [List.all_eq_true] at h
  have h2 := h b hb
  simpa using h2

theorem isSchemaTree_shape {j : Json} (h : isSchemaTree j = true) :
    ∃ fs, j = Json.obj fs := by
  cases j with
  | obj fs => exact ⟨fs, rfl⟩
  | null => simp [isSchemaTree] at h
  | bool b => simp [isSchemaTree] at h
  | num n => simp [isSchemaTree] at h
  | str s => simp [isSchemaTree] at h
  | arr l => simp [isSchemaTree] at h

theorem isSchemaTree_truthy {j : Json} (h : isSchemaTree j = true) :
    j.truthy = true := by
  obtain ⟨fs, rfl⟩ := isSchemaTree_shape h
  rfl

/-- Destructured content of `isSchemaTree` on an object node. -/
theorem isSchemaTree_obj_spec {fs : List (String × Json)}
    (h : isSchemaTree (Json.obj fs) = true) :
    ∀ kv ∈ fs,
      (kv.1 = "properties" → ∃ pfs, kv.2 = Json.obj pfs ∧
        ∀ pv ∈ pfs, simplifyBannedKeys.contains pv.1 = false ∧
          isSchemaTree pv.2 = true) ∧
      (kv.1 ≠ "properties" → kv.1 = "items" → isSchemaTree kv.2 = true) ∧
      (kv.1 ≠ "properties" → kv.1 ≠ "items" → noBannedKeyDeep kv.2 = true) := by
  intro kv hkv
  simp only [isSchemaTree, List.all_eq_true] at h
  have h3 := h ⟨kv, hkv⟩ (List.mem_attach _ _)
  dsimp only at h3
  refine ⟨?_, ?_, ?_⟩
  · intro hp
    rw [if_pos hp] at h3
    split at h3
    next pfs hv =>
      refine ⟨pfs, hv, ?_⟩
      intro pv hpv
      rw [List.all_eq_true] at h3
      have h4 := h3 ⟨pv, hpv⟩ (List.mem_attach _ _)
      simpa [Bool.and_eq_true] using h4
    next hne => exact absurd h3 (by simp)
  · intro hnp hit
    rw [if_neg hnp, if_pos hit] at h3
    exact h3
  · intro hnp hni
    rw [if_neg hnp, if_neg hni] at h3
    exact h3

theorem sizeOf_field_le {fields : List (String × Json)} {k : String} {v : Json}
    {n : Nat} (hm : (k, v) ∈ fields) (hsz : sizeOf (Json.obj fields) ≤ n + 1) :
    sizeOf v ≤ n := by
  have h1 := sizeOf_lt_of_field hm
  omega

theorem newProps_banned_free {b : String} (hb : b ∈ simplifyBannedKeys)
    {pfs : List (String × Json)}
    (hIH : ∀ pv ∈ pfs, hasKeyDeep b (simplifySchemaForSapAiCore pv.2) = false)
    (hnames : ∀ pv ∈ pfs, simplifyBannedKeys.contains pv.1 = false) :
    hasKeyDeep b (Json.obj (pfs.attach.map
      (fun kv => (kv.1.1, simplifySchemaForSapAiCore kv.1.2)))) = false := by
  apply hasKeyDeep_obj_eq_false.mpr
  intro kv2 hkv2
  rcases List.mem_map.mp hkv2 with ⟨pv, _, hpvEq⟩
  rw [← hpvEq]
  exact ⟨key_ne_banned_of_contains_false (hnames pv.1 pv.2) hb, hIH pv.1 pv.2⟩

/-- The induction core of the amended schema-stripping property. -/
theorem simplify_banned_aux :
    ∀ (n : Nat) (j : Json), sizeOf j ≤ n → isSchemaTree j = true →
      ∀ b ∈ simplifyBannedKeys, hasKeyDeep b (simplifySchemaForSapAiCore j) = false := by
  intro n
  induction n with
  | zero =>
    intro j hsz
    exact absurd hsz (by cases j <;> simp)
  | succ n ih =>
    intro j hsz htree b hb
    obtain ⟨fields, rfl⟩ := isSchemaTree_shape htree
    have hspec := isSchemaTree_obj_spec htree
    simp only [simplifySchemaForSapAiCore]
    split
    next it heqI =>
      have hitMem : ("items", it) ∈ fields := (List.mem_filter.mp (jsGet_mem heqI)).1
      have hitTree : isSchemaTree it = true := (hspec _ hitMem).2.1 (by simp) rfl
      have hitVal : hasKeyDeep b (simplifySchemaForSapAiCore it) = false :=
        ih it (sizeOf_field_le hitMem hsz) hitTree b hb
      split_ifs with hT
      · split
        next p heqP =>
          have hpMem : ("properties", p) ∈ fields := (List.mem_filter.mp (jsGet_mem heqP)).1
          obtain ⟨pfs, hpEq, hpAll⟩ := (hspec _ hpMem).1 rfl
          split_ifs with hPT
          · split
            next pfs2 hq =>
              have hpfs2 : pfs = pfs2 := by simpa using hpEq.symm
              subst hpfs2
              have hnew : hasKeyDeep b (Json.obj (pfs.attach.map
                  (fun kv => (kv.1.1, simplifySchemaForSapAiCore kv.1.2)))) = false := by
                refine newProps_banned_free hb ?_ (fun pv hpv => (hpAll pv hpv).1)
                intro pv hpv
                have hszp : sizeOf pv.2 ≤ n := by
                  have h1 := sizeOf_lt_of_field (show (pv.1, pv.2) ∈ pfs from by
                    rw [Prod.mk.eta]; exact hpv)
                  have h2 := sizeOf_lt_of_field hpMem
                  omega
                exact ih pv.2 hszp (hpAll pv hpv).2 b hb
              apply hasKeyDeep_obj_eq_false.mpr
              intro kv hkv
              rcases mem_setKey_cases hkv with ⟨hk1, hv1⟩ | ⟨hkv2, hne1⟩
              · refine ⟨?_, by rw [hv1]; exact hitVal⟩
                rw [hk1]
                intro hbe
                exact items_not_banned (hbe ▸ hb)
              · rcases mem_setKey_cases hkv2 with ⟨hk2, hv2⟩ | ⟨hkv3, hne2⟩
                · refine ⟨?_, by rw [hv2]; exact hnew⟩
                  rw [hk2]
                  intro hbe
                  exact properties_not_banned (hbe ▸ hb)
                · have hmemf := List.mem_filter.mp hkv3
                  have hcont : simplifyBannedKeys.contains kv.1 = false := by
                    simpa using hmemf.2
                  exact ⟨key_ne_banned_of_contains_false hcont hb,
                    noBannedKeyDeep_spec ((hspec _ hmemf.1).2.2 hne2 hne1) hb⟩
            next xs hq =>
              simp at hpEq
            next s hq =>
              simp at hpEq
            next hq =>
              simp at hpEq
            next hq =>
              simp at hpEq
            next hq =>
              simp at hpEq
          · have hp2 : p = Json.obj pfs := by simpa using hpEq
            exact absurd (by rw [hp2]; rfl : p.truthy = true) hPT
        next heqP =>
          apply hasKeyDeep_obj_eq_false.mpr
          intro kv hkv
          rcases mem_setKey_cases hkv with ⟨hk1, hv1⟩ | ⟨hkv2, hne1⟩
          · refine ⟨?_, by rw [hv1]; exact hitVal⟩
            rw [hk1]
            intro hbe
            exact items_not_banned (hbe ▸ hb)
          · have hmemf := List.mem_filter.mp hkv2
            have hcont : simplifyBannedKeys.contains kv.1 = false := by
              simpa using hmemf.2
            have hnp : kv.1 ≠ "properties" := jsGet_eq_none heqP kv hkv2
            exact ⟨key_ne_banned_of_contains_false hcont hb,
              noBannedKeyDeep_spec ((hspec _ hmemf.1).2.2 hnp hne1) hb⟩
      · have hitMem2 : ("items", it) ∈ fields := hitMem
        exact absurd (isSchemaTree_truthy hitTree) hT
    next heqI =>
      split
      next p heqP =>
        have hpMem : ("properties", p) ∈ fields := (List.mem_filter.mp (jsGet_mem heqP)).1
        obtain ⟨pfs, hpEq, hpAll⟩ := (hspec _ hpMem).1 rfl
        split_ifs with hPT
        · split
          next pfs2 hq =>
            have hpfs2 : pfs = pfs2 := by simpa using hpEq.symm
            subst hpfs2
            have hnew : hasKeyDeep b (Json.obj (pfs.attach.map
                (fun kv => (kv.1.1, simplifySchemaForSapAiCore kv.1.2)))) = false := by
              refine newProps_banned_free hb ?_ (fun pv hpv => (hpAll pv hpv).1)
              intro pv hpv
              have hszp : sizeOf pv.2 ≤ n := by
                have h1 := sizeOf_lt_of_field (show (pv.1, pv.2) ∈ pfs from by
                  rw [Prod.mk.eta]; exact hpv)
                have h2 := sizeOf_lt_of_field hpMem
                omega
              exact ih pv.2 hszp (hpAll pv hpv).2 b hb
            apply hasKeyDeep_obj_eq_false.mpr
            intro kv hkv
            rcases mem_setKey_cases hkv with ⟨hk2, hv2⟩ | ⟨hkv3, hne2⟩
            · refine ⟨?_, by rw [hv2]; exact hnew⟩
              rw [hk2]
              intro hbe
              exact properties_not_banned (hbe ▸ hb)
            · have hmemf := List.mem_filter.mp hkv3
              have hcont : simplifyBannedKeys.contains kv.1 = false := by
                simpa using hmemf.2
              have hni : kv.1 ≠ "items" := jsGet_eq_none heqI kv hkv3
              exact ⟨key_ne_banned_of_contains_false hcont hb,
                noBannedKeyDeep_spec ((hspec _ hmemf.1).2.2 hne2 hni) hb⟩
          next xs hq =>
            simp at hpEq
          next s hq =>
            simp at hpEq
          next hq =>
            simp at hpEq
          next hq =>
            simp at hpEq
          next hq =>
            simp at hpEq
        · have hp2 : p = Json.obj pfs := by simpa using hpEq
          exact absurd (by rw [hp2]; rfl : p.truthy = true) hPT
      next heqP =>
        apply hasKeyDeep_obj_eq_false.mpr
        intro kv hkv
        have hmemf := List.mem_filter.mp hkv
        have hcont : simplifyBannedKeys.contains kv.1 = false := by
          simpa using hmemf.2
        have hnp : kv.1 ≠ "properties" := jsGet_eq_none heqP kv hkv
        have hni : kv.1 ≠ "items" := jsGet_eq_none heqI kv hkv
        exact ⟨key_ne_banned_of_contains_false hcont hb,
          noBannedKeyDeep_spec ((hspec _ hmemf.1).2.2 hnp hni) hb⟩

/-- Counterexample to C3 as stated: a schema tree carrying `$ref` keeps
`$ref` in the output of `simplifySchemaForSapAiCore` — the function does not
strip it. -/
theorem simplifySchema_ref_counterexample :
    isSchemaTree refSchema = true ∧
    hasKeyDeep "$ref" (simplifySchemaForSapAiCore refSchema) = true := by
  constructor <;>
    simp [refSchema, isSchemaTree, hasKeyDeep, noBannedKeyDeep,
      simplifyBannedKeys, simplifySchemaForSapAiCore, jsGet, setKey, List.find?]

/-- C3 (amended): on every schema tree (nested through object `properties`
and array `items`), the output of `simplifySchemaForSapAiCore` contains none
of `$schema`, `$id`, `definitions`, `allOf`, `anyOf`, `oneOf`, `not` at any
depth.  (`$ref` is not in this list: the function does not strip it.) -/
theorem simplifySchema_strips_banned (j : Json) (htree : isSchemaTree j = true) :
    ∀ b ∈ simplifyBannedKeys, hasKeyDeep b (simplifySchemaForSapAiCore j) = false :=
  simplify_banned_aux (sizeOf j) j le_rfl htree

/-- Witness for the amended stripping theorem at a concrete schema tree with
banned keywords at three depths. -/
theorem simplifySchema_strips_witness :
    hasKeyDeep "allOf" (simplifySchemaForSapAiCore nestedSchema) = false :=
  simplifySchema_strips_banned nestedSchema
    (by simp [nestedSchema, xPropSchema, itemsSchema, isSchemaTree,
          noBannedKeyDeep, hasKeyDeep, simplifyBannedKeys])
    "allOf" (by decide)

end SchemaTheorems

section CurlyEscapingTheorems

theorem wfRuns_head_pos {d : Char} {n : Nat} {rest : List (Char × Nat)}
    (h : WfRuns ((d, n) :: rest)) : 0 < n := by
  cases rest with
  | nil => exact h
  | cons q rest2 =>
    rcases q with ⟨e, n2⟩
    exact h.1

theorem wfRuns_tail {p : Char × Nat} {rest : List (Char × Nat)}
    (h : WfRuns (p :: rest)) : WfRuns rest := by
  rcases p with ⟨d, n⟩
  cases rest with
  | nil => trivial
  | cons q rest2 =>
    rcases q with ⟨e, n2⟩
    exact h.2.2

theorem wfRuns_head_ne {d : Char} {n : Nat} {e : Char} {n2 : Nat}
    {rest : List (Char × Nat)} (h : WfRuns ((d, n) :: (e, n2) :: rest)) : d ≠ e :=
  h.2.1

theorem wfRuns_map (f : (Char × Nat) → (Char × Nat))
    (hchar : ∀ p, (f p).1 = p.1) (hpos : ∀ p, 0 < p.2 → 0 < (f p).2) :
    ∀ rs, WfRuns rs → WfRuns (rs.map f) := by
  intro rs
  induction rs with
  | nil => intro _; trivial
  | cons p rest ih =>
    intro h
    cases rest with
    | nil =>
      rcases p with ⟨d, n⟩
      rcases hf : f (d, n) with ⟨d2, n3⟩
      have := hpos (d, n) h
      rw [hf] at this
      simpa [WfRuns, hf] using this
    | cons q rest2 =>
      rcases p with ⟨d, n⟩
      rcases q with ⟨e, n2⟩
      obtain ⟨hn, hne, hwf2⟩ := h
      have ih2 := ih hwf2
      simp only [List.map_cons] at ih2 ⊢
      rcases hf : f (d, n) with ⟨d2, n3⟩
      rcases hg : f (e, n2) with ⟨e2, n4⟩
      rw [hg] at ih2
      have hd2 : d2 = d := by have h5 := hchar (d, n); rw [hf] at h5; exact h5
      have he2 : e2 = e := by have h5 := hchar (e, n2); rw [hg] at h5; exact h5
      have hn3 : 0 < n3 := by have h5 := hpos (d, n) hn; rw [hf] at h5; exact h5
      refine ⟨hn3, ?_, ih2⟩
      rw [hd2, he2]
      exact hne

theorem replaceRunAux_replicate (c : Char) (k m : Nat) :
    ∀ (n j : Nat) (l : List Char), (∀ x ∈ l.head?, x ≠ c) →
      replaceRunAux c k m j (List.replicate n c ++ l) =
        emitRun c k m (j + n) ++
          (match l with
           | [] => []
           | x :: xs => x :: replaceRunAux c k m 0 xs) := by
  intro n
  induction n with
  | zero =>
    intro j l hl
    cases l with
    | nil => simp [replaceRunAux]
    | cons x xs =>
      have hx : x ≠ c := hl x (by simp)
      simp [replaceRunAux, hx]
  | succ n ihn =>
    intro j l hl
    rw [List.replicate_succ, List.cons_append,
      show replaceRunAux c k m j (c :: (List.replicate n c ++ l)) =
        replaceRunAux c k m (j + 1) (List.replicate n c ++ l) from by
          simp [replaceRunAux]]
    rw [ihn (j + 1) l hl]
    congr 2
    omega

theorem replaceRun_pass_char (c : Char) (k : Nat) (m : Nat) (hk : 0 < k)
    {d : Char} (hd : d ≠ c) (xs : List Char) :
    replaceRun c k m (d :: xs) = d :: replaceRun c k m xs := by
  unfold replaceRun
  rw [show replaceRunAux c k m 0 (d :: xs) =
    emitRun c k m 0 ++ d :: replaceRunAux c k m 0 xs from by
      simp [replaceRunAux, hd]]
  have h0 : emitRun c k m 0 = [] := by
    unfold emitRun
    rw [if_neg (by omega)]
    rfl
  rw [h0]
  rfl

theorem replaceRun_replicate_ne (c : Char) (k m : Nat) (hk : 0 < k)
    {d : Char} (hd : d ≠ c) :
    ∀ (n : Nat) (l : List Char),
      replaceRun c k m (List.replicate n d ++ l) =
        List.replicate n d ++ replaceRun c k m l := by
  intro n
  induction n with
  | zero => simp
  | succ n ihn =>
    intro l
    rw [List.replicate_succ, List.cons_append, replaceRun_pass_char c k m hk hd,
      ihn l]
    rfl

theorem replaceRun_runsToList (c : Char) (k m : Nat) (hk : 0 < k) :
    ∀ (rs : List (Char × Nat)), WfRuns rs →
      replaceRun c k m (runsToList rs) = runsToList (rs.map (runMapFn c k m)) := by
  intro rs
  induction rs with
  | nil =>
    intro _
    simp [runsToList, replaceRun, replaceRunAux, emitRun, if_neg (by omega : ¬0 = k)]
  | cons p rest ih =>
    intro hwf
    rcases p with ⟨d, n⟩
    have hwfr := wfRuns_tail hwf
    by_cases hd : d = c
    · subst hd
      have hhead : ∀ x ∈ (runsToList rest).head?, x ≠ d := by
        intro x hx
        cases rest with
        | nil => simp [runsToList] at hx
        | cons q rest2 =>
          rcases q with ⟨e, n2⟩
          have hpos2 : 0 < n2 := wfRuns_head_pos hwfr
          have hne := wfRuns_head_ne hwf
          rcases n2 with _ | n2p
          · omega
          · rw [show runsToList ((e, n2p + 1) :: rest2) =
              e :: (List.replicate n2p e ++ runsToList rest2) from by
                simp [runsToList, List.replicate_succ]] at hx
            simp at hx
            subst hx
            exact fun hcon => hne hcon.symm
      rw [show runsToList ((d, n) :: rest) =
        List.replicate n d ++ runsToList rest from rfl]
      unfold replaceRun
      rw [replaceRunAux_replicate d k m n 0 (runsToList rest) hhead]
      have htail : (match runsToList rest with
          | [] => ([] : List Char)
          | x :: xs => x :: replaceRunAux d k m 0 xs) =
          replaceRun d k m (runsToList rest) := by
        rcases hrl : runsToList rest with _ | ⟨x, xs⟩
        · simp [replaceRun, replaceRunAux, emitRun, if_neg (by omega : ¬0 = k)]
        · have hx : x ≠ d := by
            have := hhead x (by rw [hrl]; rfl)
            exact this
          rw [replaceRun_pass_char d k m hk hx]
          rfl
      rw [htail, ih hwfr]
      rw [show (((d, n) :: rest).map (runMapFn d k m)) =
        runMapFn d k m (d, n) :: rest.map (runMapFn d k m) from rfl]
      rw [show runsToList (runMapFn d k m (d, n) :: rest.map (runMapFn d k m)) =
        List.replicate (runMapFn d k m (d, n)).2 (runMapFn d k m (d, n)).1 ++
          runsToList (rest.map (runMapFn d k m)) from by
            rcases hfn : runMapFn d k m (d, n) with ⟨d2, n2⟩
            rfl]
      have hfn1 : (runMapFn d k m (d, n)).1 = d := by
        unfold runMapFn
        split_ifs <;> rfl
      have hfn2 : (runMapFn d k m (d, n)).2 = if n = k then m else n := by
        unfold runMapFn
        by_cases hnk : n = k
        · rw [if_pos ⟨rfl, hnk⟩, if_pos hnk]
        · rw [if_neg (fun hcon => hnk hcon.2), if_neg hnk]
      rw [hfn1, hfn2]
      congr 1
      unfold emitRun
      rw [Nat.zero_add]
    · rw [show runsToList ((d, n) :: rest) =
        List.replicate n d ++ runsToList rest from rfl]
      rw [replaceRun_replicate_ne c k m hk hd n (runsToList rest), ih hwfr]
      rw [show (((d, n) :: rest).map (runMapFn c k m)) =
        runMapFn c k m (d, n) :: rest.map (runMapFn c k m) from rfl]
      have hfn : runMapFn c k m (d, n) = (d, n) := by
        unfold runMapFn
        rw [if_neg (fun hcon => hd hcon.1)]
      rw [hfn]
      rfl

theorem runMapFn_compose_actual (p : Char × Nat) :
    runMapFn '\x7d' 1 2 (runMapFn '\x7b' 1 2 (runMapFn '\x7d' 3 4
      (runMapFn '\x7b' 3 4 p))) = actualEscapeRun p := by
  rcases p with ⟨d, n⟩
  by_cases hd1 : d = '\x7b'
  · subst hd1
    have hne : ¬('\x7b' : Char) = '\x7d' := by decide
    by_cases h3 : n = 3 <;> by_cases h1 : n = 1 <;>
      simp [runMapFn, actualEscapeRun, hne, h3, h1]
  · by_cases hd2 : d = '\x7d'
    · subst hd2
      by_cases h3 : n = 3 <;> by_cases h1 : n = 1 <;>
        simp [runMapFn, actualEscapeRun, hd1, h3, h1]
    · simp [runMapFn, actualEscapeRun, hd1, hd2]

/-- C7 (amended): on any string presented by its maximal-run decomposition,
`escapeSingleCurlyBrackets` rewrites each maximal brace run of length 1 to
length 2 and of length 3 to length 4, and leaves every other run — including
brace runs of length 2, 4 and 5 or more — unchanged.  In particular isolated
single braces are doubled exactly once and already-doubled pairs are never
re-doubled, but an unpaired brace inside a run of length at least 5 is not
doubled. -/
theorem escapeSingleCurly_run_characterization (rs : List (Char × Nat))
    (hwf : WfRuns rs) :
    escapeSingleCurlyList (runsToList rs) = runsToList (rs.map actualEscapeRun) := by
  have hchar : ∀ (c : Char) (k m : Nat) (p : Char × Nat), (runMapFn c k m p).1 = p.1 := by
    intro c k m p
    unfold runMapFn
    split_ifs <;> rfl
  have hpos : ∀ (c : Char) (k : Nat) (m : Nat), 0 < m →
      ∀ p : Char × Nat, 0 < p.2 → 0 < (runMapFn c k m p).2 := by
    intro c k m hm p hp
    unfold runMapFn
    split_ifs <;> simpa
  unfold escapeSingleCurlyList
  rw [replaceRun_runsToList '\x7b' 3 4 (by omega) rs hwf]
  have hwf1 := wfRuns_map _ (hchar '\x7b' 3 4) (hpos '\x7b' 3 4 (by omega)) rs hwf
  rw [replaceRun_runsToList '\x7d' 3 4 (by omega) _ hwf1]
  have hwf2 := wfRuns_map _ (hchar '\x7d' 3 4) (hpos '\x7d' 3 4 (by omega)) _ hwf1
  rw [replaceRun_runsToList '\x7b' 1 2 (by omega) _ hwf2]
  have hwf3 := wfRuns_map _ (hchar '\x7b' 1 2) (hpos '\x7b' 1 2 (by omega)) _ hwf2
  rw [replaceRun_runsToList '\x7d' 1 2 (by omega) _ hwf3]
  rw [List.map_map, List.map_map, List.map_map]
  congr 1
  apply List.map_congr_left
  intro p _
  exact runMapFn_compose_actual p

/-- Counterexample to C7 as stated: the string of five consecutive open
braces contains one unpaired brace (greedy pairing leaves a leftover), which
the claim says gets doubled, yielding six braces; the implementation leaves
the run of five untouched. -/
theorem escapeSingleCurly_claim_counterexample :
    WfRuns [('\x7b', 5)] ∧
    runsToList [('\x7b', 5)] = "\x7b\x7b\x7b\x7b\x7b".toList ∧
    claimedEscapeOfRuns [('\x7b', 5)] = "\x7b\x7b\x7b\x7b\x7b\x7b".toList ∧
    escapeSingleCurlyBracketsStr "\x7b\x7b\x7b\x7b\x7b" = "\x7b\x7b\x7b\x7b\x7b" ∧
    escapeSingleCurlyList (runsToList [('\x7b', 5)]) ≠
      claimedEscapeOfRuns [('\x7b', 5)] := by
  refine ⟨(by norm_num : (0 : Nat) < 5), by decide, by decide, by decide, by decide⟩

/-- Witness for the run characterization at a concrete string `a\x7bb\x7d\x7d`:
the isolated open brace is doubled, the doubled close pair is untouched. -/
theorem escapeSingleCurly_run_witness :
    escapeSingleCurlyList (runsToList [('a', 1), ('\x7b', 1), ('b', 1), ('\x7d', 2)]) =
      runsToList ([('a', 1), ('\x7b', 1), ('b', 1), ('\x7d', 2)].map actualEscapeRun) :=
  escapeSingleCurly_run_characterization [('a', 1), ('\x7b', 1), ('b', 1), ('\x7d', 2)]
    ⟨by decide, by decide, by decide, by decide, by decide, by decide,
     (by norm_num : (0 : Nat) < 2)⟩

end CurlyEscapingTheorems
